import Mathlib

/-!
# A shallow embedding of the `dgruft` Vault core

This file embeds the data model and the operations of the `dgruft`
encrypted-vault program (Rust) and proves properties of its
natural-language specification against that embedding.

Modelling conventions, fixed once here:

* Byte strings (`&[u8]`, `Vec<u8>`, `Box<[u8]>`, and the UTF-8 bytes of
  `&str` / `String` values such as usernames, passwords, filenames and
  credential names) are `List Nat`.  The base64 boundary encoding used by
  the metadata store (`database_traits.rs`) is a fixed bijection and is
  identified with the raw bytes; columns are modelled by position in typed
  rows, so the SQL text layer is below this abstraction.
* Fallible Rust functions returning `Result`/`eyre::Result` are modelled
  with `Option` (error payloads are not inspected by the code under
  study), except `Account::unlock` and the account loads, whose distinct
  error variants are observable and are modelled with `Except DgruftError`.
* The AEAD primitive (`aes_gcm` crate) and the KDF (`pbkdf2` crate) are
  external to the repository.  They are modelled from the spec, §4.1:
  AES-256-GCM keeps the GCM shape — a CTR-style keystream XOR plus an
  authentication tag over the cipher body — with the tag idealised as an
  injective function of (key, nonce, body), so that "open fails iff the
  tag does not verify" is, as the spec says, "the authoritative signal
  for wrong key or tampered record".  PBKDF2 is modelled as an ideal
  (deterministic, injective) keyed derivation; the 50,000-iteration count
  is below this abstraction.
-/

set_option maxRecDepth 8000

deriving instance DecidableEq for Except

namespace Dgruft

/-- Raw bytes.  Values are unconstrained naturals; the `u8` range plays no
role in any property proved here. -/
abbrev Bytes := List Nat

/-! ## Crypto primitives (spec-modelled externals) -/

/-- Modelled from the spec: PBKDF2-HMAC-SHA256 (§4.1) lives in the external
`pbkdf2` crate, not in this repository.  It is modelled as an ideal keyed
derivation: deterministic, and injective in the input for a fixed salt
(the length prefix makes the pairing injective). -/
def pbkdf2 (input salt : Bytes) : Bytes :=
  input.length :: (input ++ salt)

/-- The output of one AEAD seal: the cipher body together with the GCM
authentication tag (the Rust `cipherbytes` buffer carries both). -/
structure GcmCipher where
  body : Bytes
  tag : Bytes
  deriving DecidableEq

/-- Modelled from the spec: the CTR keystream of AES-256-GCM.  Only its
determinism matters to the properties proved here (XOR cancellation);
the concrete mixing function is arbitrary. -/
def gcmKeystream (key nonce : Bytes) (len : Nat) : Bytes :=
  (List.range len).map (fun i => key.sum + nonce.sum + i)

/-- Modelled from the spec: the GCM authentication tag, idealised as an
injective function of (key, nonce, cipher body).  §4.1: "Open fails if
the tag does not verify; this is the authoritative signal for wrong key
or tampered record." -/
def gcmTag (key nonce body : Bytes) : Bytes :=
  key.length :: (key ++ nonce ++ body)

/-- Modelled from the spec: the seal operation of AES-256-GCM (§4.1).
The cipher body is the plaintext XORed with the keystream; the tag is
appended (carried in the `tag` field of `GcmCipher`). -/
def aeadEncrypt (key nonce msg : Bytes) : GcmCipher :=
  let body := List.zipWith (fun a b => a ^^^ b) msg (gcmKeystream key nonce msg.length)
  ⟨body, gcmTag key nonce body⟩

/-- Modelled from the spec: the open operation of AES-256-GCM (§4.1).
Recompute the tag over the received body; fail unless it verifies;
otherwise undo the keystream XOR. -/
def aeadDecrypt (key nonce : Bytes) (ct : GcmCipher) : Option Bytes :=
  if ct.tag = gcmTag key nonce ct.body then
    some (List.zipWith (fun a b => a ^^^ b) ct.body (gcmKeystream key nonce ct.body.length))
  else
    none

theorem zipWith_xor_cancel (msg ks : Bytes) (h : ks.length = msg.length) :
    List.zipWith (fun a b => a ^^^ b)
      (List.zipWith (fun a b => a ^^^ b) msg ks) ks = msg := by
  induction msg generalizing ks with
  | nil => simp
  | cons a as ih =>
    cases ks with
    | nil => simp at h
    | cons b bs =>
      simp only [List.zipWith_cons_cons, List.cons.injEq]
      refine ⟨Nat.xor_cancel_right b a, ih bs ?_⟩
      simpa using h

theorem gcmKeystream_length (key nonce : Bytes) (len : Nat) :
    (gcmKeystream key nonce len).length = len := by
  simp [gcmKeystream]

theorem aeadEncrypt_body_length (key nonce msg : Bytes) :
    (aeadEncrypt key nonce msg).body.length = msg.length := by
  simp [aeadEncrypt, gcmKeystream_length]

/-- Round trip of the AEAD core: opening a sealed record under the sealing
key and nonce recovers the plaintext. -/
theorem aeadDecrypt_aeadEncrypt (key nonce msg : Bytes) :
    aeadDecrypt key nonce (aeadEncrypt key nonce msg) = some msg := by
  have hb : (aeadEncrypt key nonce msg).body
      = List.zipWith (fun a b => a ^^^ b) msg (gcmKeystream key nonce msg.length) := rfl
  have hlen : (aeadEncrypt key nonce msg).body.length = msg.length :=
    aeadEncrypt_body_length key nonce msg
  have htag : (aeadEncrypt key nonce msg).tag
      = gcmTag key nonce (aeadEncrypt key nonce msg).body := rfl
  rw [aeadDecrypt, if_pos htag, hlen, hb]
  congr 1
  exact zipWith_xor_cancel msg _ (gcmKeystream_length key nonce msg.length)

/-- The idealised tag determines the key (for keys of equal length):
this is where the "authoritative wrong-key signal" of §4.1 enters. -/
theorem gcmTag_key_inj (key1 key2 nonce body : Bytes)
    (h : gcmTag key1 nonce body = gcmTag key2 nonce body) : key1 = key2 := by
  simp only [gcmTag, List.cons.injEq, List.append_assoc] at h
  exact List.append_cancel_right h.2

/-! ## `Encrypted` (src/backend/encryption/encrypted.rs and the older
src/backend/encrypted.rs; both store the cipherbytes together with the
nonce used to produce them) -/

/-- `Encrypted`: cipherbytes (body + tag) plus the 12-byte nonce. -/
structure Encrypted where
  cipherbytes : GcmCipher
  nonce : Bytes
  deriving DecidableEq

/-- `Encrypted::try_encrypt_bytes_key_nonce` (encryption/encrypted.rs:25-38):
seal `byte_slice` under `key` and `nonce`, recording the nonce in the
result.  The crate-level failure case (oversized plaintext) is below the
model, so encryption always succeeds. -/
def Encrypted.try_encrypt_bytes_key_nonce (byte_slice key nonce : Bytes) :
    Option Encrypted :=
  some ⟨aeadEncrypt key nonce byte_slice, nonce⟩

/-- `Encrypted::from_fields` (encryption/encrypted.rs:41-43). -/
def Encrypted.from_fields (cipherbytes : GcmCipher) (nonce : Bytes) : Encrypted :=
  ⟨cipherbytes, nonce⟩

/-- `Encrypted::try_decrypt_bytes` (encryption/encrypted.rs:46-52): open the
stored cipherbytes under `key` and the *stored* nonce. -/
def Encrypted.try_decrypt_bytes (e : Encrypted) (key : Bytes) : Option Bytes :=
  aeadDecrypt key e.nonce e.cipherbytes

/-- Old-generation `Encrypted::new` / `Encrypted::from_nonce`
(backend/encrypted.rs:17-39), with the CSPRNG-sampled nonce passed
explicitly; also the shape of `try_encrypt_with_key` once its sampled
nonce is made explicit (encryption/traits.rs:27-33). -/
def Encrypted.new (content key nonce : Bytes) : Encrypted :=
  ⟨aeadEncrypt key nonce content, nonce⟩

/-- Old-generation `Encrypted::decrypt` (backend/encrypted.rs:58-64);
semantically identical to `try_decrypt_bytes`. -/
def Encrypted.decrypt (e : Encrypted) (key : Bytes) : Option Bytes :=
  aeadDecrypt key e.nonce e.cipherbytes

/-! ## `Hashed` (src/backend/hashed.rs) -/

/-- `Hashed`: a PBKDF2 hash together with its salt.  The 32/64-byte widths
of the Rust `[u8; 32]` / `[u8; 64]` are not re-imposed on the model; no
property proved here depends on them. -/
structure Hashed where
  hash : Bytes
  salt : Bytes
  deriving DecidableEq

/-- `Hashed::from_salt` (backend/hashed.rs:30-35). -/
def Hashed.from_salt (input_bytes salt : Bytes) : Hashed :=
  ⟨pbkdf2 input_bytes salt, salt⟩

/-! ## `Account` and `SecureFields` (src/backend/account.rs) -/

/-- The error kinds of `crate::error::Error` observable through
`Account::unlock` and the account loads. -/
inductive DgruftError where
  | incorrectPassword
  | decryptionError
  | accountNotFound
  | dirError
  deriving DecidableEq

/-- `Account` (account.rs:8-13). -/
structure Account where
  username : Bytes
  password_salt : Bytes
  dbl_hashed_password : Hashed
  encrypted_key : Encrypted
  deriving DecidableEq

/-- `Account::new` (account.rs:16-31), with the CSPRNG outputs (the fresh
32-byte key, the two 64-byte salts, the nonce) passed explicitly. -/
def Account.new (username password : Bytes) (key salt1 salt2 nonce : Bytes) :
    Account :=
  let hashed_password := Hashed.from_salt password salt1
  let encrypted_key := Encrypted.new key hashed_password.hash nonce
  let dbl_hashed_password := Hashed.from_salt hashed_password.hash salt2
  { username := username
    password_salt := hashed_password.salt
    dbl_hashed_password := dbl_hashed_password
    encrypted_key := encrypted_key }

/-- `SecureFields` (account.rs:133-140); the unlocked session view of an
account (called `UnlockedAccount` by the newer vault layer). -/
structure SecureFields where
  username : Bytes
  password : Bytes
  hashed_password : Hashed
  dbl_hashed_password : Hashed
  key : Bytes
  encrypted_key : Encrypted
  deriving DecidableEq

/-- `Account::unlock` (account.rs:102-127).  Recompute the double hash; on
mismatch return `IncorrectPasswordError`; otherwise open `encrypted_key`
under the once-hashed password, propagating (via `?`) the distinct
`DecryptionError` if the AEAD open fails.  (The Rust code additionally
`unwrap`s the 32-byte length of the recovered key; lengths are not
re-imposed here.) -/
def Account.unlock (acc : Account) (password : Bytes) :
    Except DgruftError SecureFields :=
  let hashed_password := Hashed.from_salt password acc.password_salt
  let dbl_hashed_password :=
    Hashed.from_salt hashed_password.hash acc.dbl_hashed_password.salt
  if dbl_hashed_password.hash ≠ acc.dbl_hashed_password.hash then
    .error .incorrectPassword
  else
    match acc.encrypted_key.decrypt hashed_password.hash with
    | none => .error .decryptionError
    | some key =>
        .ok { username := acc.username
              password := password
              hashed_password := hashed_password
              dbl_hashed_password := dbl_hashed_password
              key := key
              encrypted_key := acc.encrypted_key }

/-- Modelled from the spec: `UnlockedAccount::change_password`, called by
`Vault::change_account_password` (vault.rs:135), is absent from src/ (the
snapshot carries the older `account.rs`).  Per §4.6.1 (Change password):
compute a fresh `H1_new`, seal the *unchanged* key `K` under
`H1_new.hash` with a fresh nonce, compute a fresh `H2_new`.  The fresh
CSPRNG salts and nonce are passed explicitly. -/
def SecureFields.change_password (sf : SecureFields)
    (new_password salt1 salt2 nonce : Bytes) : SecureFields :=
  let hashed_password := Hashed.from_salt new_password salt1
  let encrypted_key := Encrypted.new sf.key hashed_password.hash nonce
  let dbl_hashed_password := Hashed.from_salt hashed_password.hash salt2
  { sf with
      password := new_password
      hashed_password := hashed_password
      dbl_hashed_password := dbl_hashed_password
      encrypted_key := encrypted_key }

/-! ## The secure editor helper (src/edit.rs) -/

/-- A temp file as seen by `shred_tempfile`: its byte contents and the
write cursor of the freshly opened handle (`OpenOptions` read+write
without truncation or append starts at offset 0). -/
structure TempFile where
  contents : Bytes
  cursor : Nat
  deriving DecidableEq

/-- `write_all` on a file handle: overwrite starting at the cursor,
extending the file if the write runs past the end, and advance the
cursor. -/
def TempFile.write_all (f : TempFile) (bytes : Bytes) : TempFile :=
  ⟨f.contents.take f.cursor ++ bytes ++ f.contents.drop (f.cursor + bytes.length),
   f.cursor + bytes.length⟩

/-- `shred_tempfile` (edit.rs:67-85), up to the `remove_file`: open the
temp file (cursor 0), take its length `L`, then `PASSES = 3` times fill a
fresh random vector of length `L` and `write_all` it.  The three sampled
random vectors `r1 r2 r3` are passed explicitly; the function returns the
file contents just before deletion.  Note the loop never seeks back to
offset 0. -/
def shred_tempfile (contents r1 r2 r3 : Bytes) : Bytes :=
  ((((TempFile.mk contents 0).write_all r1).write_all r2).write_all r3).contents

/-! ## C6 / C7: AEAD wrapper round trip and wrong-key failure -/

/-- **C6.** For every plaintext `p`, 32-byte key `K` and 12-byte nonce `n`:
if `Encrypted::try_encrypt_bytes_key_nonce(p, K, n)` succeeds, decrypting
the result under the same key `K` succeeds and returns exactly `p`
(spec P1, round trip). -/
theorem try_encrypt_try_decrypt_roundtrip (p key nonce : Bytes) (e : Encrypted)
    (hkey : key.length = 32) (hnonce : nonce.length = 12)
    (henc : Encrypted.try_encrypt_bytes_key_nonce p key nonce = some e) :
    Encrypted.try_decrypt_bytes e key = some p := by
  have he : e = ⟨aeadEncrypt key nonce p, nonce⟩ := by
    simpa [Encrypted.try_encrypt_bytes_key_nonce] using henc.symm
  subst he
  simpa [Encrypted.try_decrypt_bytes] using aeadDecrypt_aeadEncrypt key nonce p

/-- Witness for C6 at plaintext `[1, 2]`, the all-zero 32-byte key and the
all-zero 12-byte nonce. -/
theorem try_encrypt_try_decrypt_roundtrip_witness :
    Encrypted.try_decrypt_bytes
      ⟨aeadEncrypt (List.replicate 32 0) (List.replicate 12 0) [1, 2],
        List.replicate 12 0⟩ (List.replicate 32 0) = some [1, 2] :=
  try_encrypt_try_decrypt_roundtrip [1, 2] (List.replicate 32 0)
    (List.replicate 12 0) _ (by decide) (by decide) rfl

/-- **C7.** For every plaintext `p` and distinct 32-byte keys `K1 ≠ K2`:
decrypting the `Encrypted` produced under `K1` with the other key `K2`
fails — `try_decrypt_bytes` returns the error that is the authoritative
wrong-key signal (spec P2). -/
theorem try_decrypt_wrong_key_fails (p k1 k2 nonce : Bytes) (e : Encrypted)
    (h1 : k1.length = 32) (h2 : k2.length = 32) (hne : k1 ≠ k2)
    (henc : Encrypted.try_encrypt_bytes_key_nonce p k1 nonce = some e) :
    Encrypted.try_decrypt_bytes e k2 = none := by
  have he : e = ⟨aeadEncrypt k1 nonce p, nonce⟩ := by
    simpa [Encrypted.try_encrypt_bytes_key_nonce] using henc.symm
  subst he
  unfold Encrypted.try_decrypt_bytes aeadDecrypt
  rw [if_neg]
  intro htag
  have hb : (aeadEncrypt k1 nonce p).tag
      = gcmTag k1 nonce (aeadEncrypt k1 nonce p).body := rfl
  exact hne (gcmTag_key_inj k1 k2 nonce _ (hb.symm.trans htag))

/-- Witness for C7: the all-zero and all-one 32-byte keys. -/
theorem try_decrypt_wrong_key_fails_witness :
    Encrypted.try_decrypt_bytes
      ⟨aeadEncrypt (List.replicate 32 0) (List.replicate 12 0) [1, 2],
        List.replicate 12 0⟩ (List.replicate 32 1) = none :=
  try_decrypt_wrong_key_fails [1, 2] (List.replicate 32 0) (List.replicate 32 1)
    (List.replicate 12 0) _ (by decide) (by decide) (by decide) rfl

/-! ## C4: the two failure paths of `Account::unlock` -/

/-- An account record as `unlock` receives them from the metadata store
(account.rs `from_b64`): the double hash is consistent with password
`[7]`, but the sealed key blob was produced under the key `[0]`, not
under the once-hashed password — so password `[7]` passes the hash
comparison and then fails at the AEAD unsealing step. -/
def accC4 : Account :=
  { username := [117]
    password_salt := [1]
    dbl_hashed_password :=
      Hashed.from_salt (Hashed.from_salt [7] [1]).hash [2]
    encrypted_key := Encrypted.new [9, 9] [0] [5] }

/-- **C4, counterexample.** The two failure paths of `Account::unlock` are
distinguishable: on `accC4`, the password `[7]` fails at the AEAD
unsealing step and yields `DecryptionError`, while `[8]` fails at the
double-hash comparison and yields `IncorrectPasswordError` — two
different error values, contradicting "a single, indistinguishable
incorrect-password error". -/
theorem unlock_two_distinct_failure_errors :
    Account.unlock accC4 [7] = .error .decryptionError ∧
    Account.unlock accC4 [8] = .error .incorrectPassword ∧
    DgruftError.decryptionError ≠ DgruftError.incorrectPassword := by
  refine ⟨by decide, by decide, by decide⟩

/-- **C4 (amended).** A password that fails the double-hash comparison
yields `IncorrectPasswordError`; a password that passes it but fails the
AEAD unsealing of the encrypted key yields the distinct
`DecryptionError` propagated by the `?` operator (account.rs:112-116) —
so the caller can tell the two failure paths apart. -/
theorem unlock_failure_error_depends_on_step (acc : Account) (password : Bytes) :
    ((Hashed.from_salt (Hashed.from_salt password acc.password_salt).hash
        acc.dbl_hashed_password.salt).hash ≠ acc.dbl_hashed_password.hash →
      Account.unlock acc password = .error .incorrectPassword) ∧
    ((Hashed.from_salt (Hashed.from_salt password acc.password_salt).hash
        acc.dbl_hashed_password.salt).hash = acc.dbl_hashed_password.hash →
      acc.encrypted_key.decrypt
          (Hashed.from_salt password acc.password_salt).hash = none →
      Account.unlock acc password = .error .decryptionError) := by
  constructor
  · intro h
    simp only [Account.unlock, if_pos h]
  · intro h hdec
    simp only [Account.unlock, h, ne_eq, not_true_eq_false, if_false, hdec]

/-- Witness for the amended C4: both hypothesis configurations realised on
`accC4`. -/
theorem unlock_failure_error_depends_on_step_witness :
    Account.unlock accC4 [8] = .error .incorrectPassword ∧
    Account.unlock accC4 [7] = .error .decryptionError :=
  ⟨(unlock_failure_error_depends_on_step accC4 [8]).1 (by decide),
   (unlock_failure_error_depends_on_step accC4 [7]).2 (by decide) (by decide)⟩

/-! ## C5: the temp-file shred of the secure editor helper -/

/-- **C5, evaluation at the failing input.** Shredding a 3-byte temp file
holding plaintext `[10, 20, 30]` with the three sampled random vectors
`[1,1,1]`, `[2,2,2]`, `[3,3,3]` leaves, just before deletion, the 9-byte
file `r1 ++ r2 ++ r3`: the write cursor is never rewound, so passes 2 and
3 append past the end instead of overwriting the plaintext region — that
region (bytes 0..3) is overwritten by random bytes exactly once, not
three times. -/
theorem shred_tempfile_passes_append :
    shred_tempfile [10, 20, 30] [1, 1, 1] [2, 2, 2] [3, 3, 3]
      = [1, 1, 1, 2, 2, 2, 3, 3, 3] := by decide

/-! ## The filesystem store (src/backend/vault/filesystem.rs)

Paths are lists of components below the filesystem root; pushing an empty
component is the identity, because `<dir>/` and `<dir>` name the same
filesystem object (camino's `push("")` only appends a trailing
separator).  The filesystem is an association list from (normalised)
paths to entries. -/

abbrev Path := List Bytes

/-- A filesystem entry: a directory (with its read-only permission bit) or
a regular file holding one ciphertext blob. -/
inductive FsEntry where
  | dir (readonly : Bool)
  | file (contents : GcmCipher)
  deriving DecidableEq

abbrev Filesystem := List (Path × FsEntry)

/-- `camino::Utf8PathBuf::push`, at the level of filesystem objects. -/
def pathPush (p : Path) (s : Bytes) : Path :=
  if s = [] then p else p ++ [s]

/-- `std::fs::metadata`-style lookup. -/
def fsLookup (fs : Filesystem) (p : Path) : Option FsEntry :=
  (fs.find? (fun e => e.fst == p)).map (·.snd)

/-- Remove the entry at exactly `p`. -/
def fsRemove (fs : Filesystem) (p : Path) : Filesystem :=
  fs.filter (fun e => !(e.fst == p))

/-- `verify_writeable_dir` (filesystem.rs:17-37): the path exists, is a
directory, and is not read-only. -/
def verify_writeable_dir (fs : Filesystem) (p : Path) : Bool :=
  match fsLookup fs p with
  | none => false
  | some (.file _) => false
  | some (.dir ro) => !ro

/-- `get_account_file_dir` (filesystem.rs:40-48). -/
def get_account_file_dir (fs : Filesystem) (fs_dir : Path) (username : Bytes) :
    Option Path :=
  let dir := pathPush fs_dir username
  if verify_writeable_dir fs dir then some dir else none

/-- `get_file_path` (filesystem.rs:51-59). -/
def get_file_path (fs : Filesystem) (fs_dir : Path) (username filename : Bytes) :
    Option Path :=
  (get_account_file_dir fs fs_dir username).map (fun d => pathPush d filename)

/-- `new_account_file_dir` (filesystem.rs:62-71): verify the root, then
`create_dir`, which fails if the target already exists (the parent, the
verified root, exists). -/
def new_account_file_dir (fs : Filesystem) (fs_dir : Path) (username : Bytes) :
    Option Filesystem :=
  if verify_writeable_dir fs fs_dir then
    let dir := pathPush fs_dir username
    if (fsLookup fs dir).isSome then none
    else some ((dir, .dir false) :: fs)
  else none

/-- `new_file` (filesystem.rs:74-82): `File::create_new` fails if any
entry — file or directory — already exists at `path`; otherwise write the
cipherbytes. -/
def new_file (fs : Filesystem) (p : Path) (contents : GcmCipher) :
    Option Filesystem :=
  if (fsLookup fs p).isSome then none
  else some ((p, .file contents) :: fs)

/-- Modelled from the spec: `write_file`, imported by vault.rs but absent
from src/'s filesystem.rs; §4.5: "`write_all(path, bytes)` (truncating)".
Writing over a directory fails; otherwise the blob at `p` is replaced
(created if absent). -/
def write_file (fs : Filesystem) (p : Path) (contents : GcmCipher) :
    Option Filesystem :=
  match fsLookup fs p with
  | some (.dir _) => none
  | _ => some ((p, .file contents) :: fsRemove fs p)

/-- `std::fs::remove_file` as used by `Vault::delete_file` (vault.rs:383):
fails unless a regular file exists at `p`. -/
def remove_file (fs : Filesystem) (p : Path) : Option Filesystem :=
  match fsLookup fs p with
  | some (.file _) => some (fsRemove fs p)
  | _ => none

/-- `std::fs::remove_dir_all` as used by `Vault::delete_account`
(vault.rs:87): fails if `p` is absent; otherwise removes `p` and
everything below it. -/
def remove_dir_all (fs : Filesystem) (p : Path) : Option Filesystem :=
  if (fsLookup fs p).isSome then
    some (fs.filter (fun e => !(p.isPrefixOf e.fst)))
  else none

/-! ## Entities (src/backend/credential.rs, src/backend/file_data.rs) -/

/-- `Credential` (credential.rs:24-30). -/
structure Credential where
  owner_username : Bytes
  encrypted_name : Encrypted
  encrypted_username : Encrypted
  encrypted_password : Encrypted
  encrypted_notes : Encrypted
  deriving DecidableEq

/-- `Credential::try_new` (credential.rs:33-52): seal the four fields, each
under its own fresh nonce (the four sampled nonces passed explicitly). -/
def Credential.try_new (owner_username key name username password notes : Bytes)
    (n1 n2 n3 n4 : Bytes) : Credential :=
  ⟨owner_username,
   Encrypted.new name key n1,
   Encrypted.new username key n2,
   Encrypted.new password key n3,
   Encrypted.new notes key n4⟩

/-- `Credential::name::<T>` (credential.rs:97-99): decrypt the sealed name.
(The UTF-8 re-decoding of `String` targets is the identity in the
byte-list model.) -/
def Credential.name (c : Credential) (key : Bytes) : Option Bytes :=
  c.encrypted_name.try_decrypt_bytes key

/-- `FileData` (file_data.rs:7-12). -/
structure FileData where
  path : Path
  filename : Bytes
  owner_username : Bytes
  contents_nonce : Bytes
  deriving DecidableEq

/-! ## The metadata store (src/backend/vault/database.rs)

Typed relational view of the three tables of vault/sql_schemas.rs.  The
primary keys are `username`, `(owner_username, encrypted_name_cipherbytes)`
and `path`; both child tables have `FOREIGN KEY (owner_username)
REFERENCES accounts(username) ON DELETE CASCADE`.  `insert` fails on a
constraint violation; `delete` and `update` fail when zero rows match
(database.rs:153-157 / 256-258), and because the selectors are primary
keys, "exactly one row" (`Vault::validate_one_row`) is then automatic.
Rows are kept in insertion (rowid) order, the order in which a plain
`SELECT ... WHERE owner_username = ?` scan returns them. -/

structure Database where
  accounts : List Account
  credentials : List Credential
  files_data : List FileData
  deriving DecidableEq

def Database.select_account (db : Database) (u : Bytes) : Option Account :=
  db.accounts.find? (fun a => a.username == u)

def Database.insert_account (db : Database) (a : Account) : Option Database :=
  if db.accounts.any (fun x => x.username == a.username) then none
  else some { db with accounts := db.accounts ++ [a] }

/-- Account deletion, with the `ON DELETE CASCADE` of both child tables. -/
def Database.delete_account (db : Database) (u : Bytes) : Option Database :=
  if db.accounts.any (fun x => x.username == u) then
    some ⟨db.accounts.filter (fun x => !(x.username == u)),
          db.credentials.filter (fun c => !(c.owner_username == u)),
          db.files_data.filter (fun f => !(f.owner_username == u))⟩
  else none

/-- One single-column `UPDATE accounts ... WHERE username = ?`: `g` is the
column setter (it never touches the `username` primary key — there is no
such `AccountUpdateField` variant). -/
def Database.update_account (db : Database) (u : Bytes) (g : Account → Account) :
    Option Database :=
  if db.accounts.any (fun x => x.username == u) then
    some { db with
            accounts := db.accounts.map (fun x => if x.username == u then g x else x) }
  else none

def Database.select_owned_credentials (db : Database) (owner : Bytes) :
    List Credential :=
  db.credentials.filter (fun c => c.owner_username == owner)

def Database.insert_credential (db : Database) (c : Credential) : Option Database :=
  if !(db.accounts.any (fun a => a.username == c.owner_username)) then none
  else if db.credentials.any (fun c0 =>
      c0.owner_username == c.owner_username
        && c0.encrypted_name.cipherbytes == c.encrypted_name.cipherbytes) then none
  else some { db with credentials := db.credentials ++ [c] }

def Database.delete_credential (db : Database) (owner : Bytes) (cbytes : GcmCipher) :
    Option Database :=
  if db.credentials.any (fun c0 =>
      c0.owner_username == owner && c0.encrypted_name.cipherbytes == cbytes) then
    some { db with credentials := db.credentials.filter (fun c0 =>
            !(c0.owner_username == owner && c0.encrypted_name.cipherbytes == cbytes)) }
  else none

def Database.update_credential (db : Database) (owner : Bytes) (cbytes : GcmCipher)
    (g : Credential → Credential) : Option Database :=
  if db.credentials.any (fun c0 =>
      c0.owner_username == owner && c0.encrypted_name.cipherbytes == cbytes) then
    some { db with credentials := db.credentials.map (fun c0 =>
            if c0.owner_username == owner && c0.encrypted_name.cipherbytes == cbytes
            then g c0 else c0) }
  else none

def Database.select_file_data (db : Database) (p : Path) : Option FileData :=
  db.files_data.find? (fun f => f.path == p)

def Database.select_owned_files_data (db : Database) (owner : Bytes) :
    List FileData :=
  db.files_data.filter (fun f => f.owner_username == owner)

def Database.insert_file_data (db : Database) (fd : FileData) : Option Database :=
  if !(db.accounts.any (fun a => a.username == fd.owner_username)) then none
  else if db.files_data.any (fun f => f.path == fd.path) then none
  else some { db with files_data := db.files_data ++ [fd] }

def Database.delete_file_data (db : Database) (p : Path) : Option Database :=
  if db.files_data.any (fun f => f.path == p) then
    some { db with files_data := db.files_data.filter (fun f => !(f.path == p)) }
  else none

def Database.update_file_data_nonce (db : Database) (p : Path) (nonce : Bytes) :
    Option Database :=
  if db.files_data.any (fun f => f.path == p) then
    some { db with files_data := db.files_data.map (fun f =>
            if f.path == p then { f with contents_nonce := nonce } else f) }
  else none

/-! ## The Vault orchestrator (src/backend/vault.rs)

A `VaultState` is the pair of stores jointly owned by one `Vault` value,
plus the configured data directory.  Every mutating operation returns
`(result, state after the call)`: the Rust `eyre::Result<()>` is the
`Option Unit`, and on every error path the returned state is the
pre-call state — the open transaction is dropped (rolled back) and the
filesystem primitive that failed had no effect. -/

structure VaultState where
  database : Database
  fs : Filesystem
  filesystem_directory : Path
  deriving DecidableEq

/-- `Vault::create_new_account` (vault.rs:58-72): build the account, open a
transaction, insert, create the account's file directory, commit.  The
CSPRNG outputs consumed by `Account::new` are passed explicitly. -/
def Vault.create_new_account (st : VaultState) (username password : Bytes)
    (key salt1 salt2 nonce : Bytes) : Option Unit × VaultState :=
  let account := Account.new username password key salt1 salt2 nonce
  match st.database.insert_account account with
  | none => (none, st)
  | some db2 =>
      match new_account_file_dir st.fs st.filesystem_directory username with
      | none => (none, st)
      | some fs2 => (some (), { st with database := db2, fs := fs2 })

/-- `Vault::delete_account` (vault.rs:75-90): resolve the directory, open a
transaction, delete the row (cascading), remove the directory, commit. -/
def Vault.delete_account (st : VaultState) (username : Bytes) :
    Option Unit × VaultState :=
  match get_account_file_dir st.fs st.filesystem_directory username with
  | none => (none, st)
  | some account_dir =>
      match st.database.delete_account username with
      | none => (none, st)
      | some db2 =>
          match remove_dir_all st.fs account_dir with
          | none => (none, st)
          | some fs2 => (some (), { st with database := db2, fs := fs2 })

/-- `Vault::load_account` (vault.rs:93-104): resolve (and thereby verify)
the account's file directory, then select the row by username. -/
def Vault.load_account (st : VaultState) (username : Bytes) :
    Except DgruftError Account :=
  match get_account_file_dir st.fs st.filesystem_directory username with
  | none => .error .dirError
  | some _ =>
      match st.database.select_account username with
      | none => .error .accountNotFound
      | some a => .ok a

/-- `Vault::load_unlocked_account` (vault.rs:107-119). -/
def Vault.load_unlocked_account (st : VaultState) (username password : Bytes) :
    Except DgruftError SecureFields :=
  match Vault.load_account st username with
  | .error e => .error e
  | .ok acc => acc.unlock password

/-- `Vault::change_account_password` (vault.rs:122-181): load and unlock
with the old password, change the unlocked account's password (fresh key
wrap), then in one transaction update the five columns, each of which
must affect exactly one row; commit.  The fresh CSPRNG salts and nonce
are passed explicitly. -/
def Vault.change_account_password (st : VaultState)
    (username old_password new_password : Bytes)
    (salt1 salt2 nonce : Bytes) : Option Unit × VaultState :=
  match Vault.load_unlocked_account st username old_password with
  | .error _ => (none, st)
  | .ok ua =>
      let ua2 := ua.change_password new_password salt1 salt2 nonce
      let upd :=
        (st.database.update_account username
          (fun a => { a with password_salt := ua2.hashed_password.salt })).bind
        fun db => (db.update_account username
          (fun a => { a with dbl_hashed_password :=
              ⟨ua2.dbl_hashed_password.hash, a.dbl_hashed_password.salt⟩ })).bind
        fun db => (db.update_account username
          (fun a => { a with dbl_hashed_password :=
              ⟨a.dbl_hashed_password.hash, ua2.dbl_hashed_password.salt⟩ })).bind
        fun db => (db.update_account username
          (fun a => { a with encrypted_key :=
              ⟨ua2.encrypted_key.cipherbytes, a.encrypted_key.nonce⟩ })).bind
        fun db => db.update_account username
          (fun a => { a with encrypted_key :=
              ⟨a.encrypted_key.cipherbytes, ua2.encrypted_key.nonce⟩ })
      match upd with
      | none => (none, st)
      | some db2 => (some (), { st with database := db2 })

/-- `Vault::load_account_credentials` (vault.rs:280-286). -/
def Vault.load_account_credentials (st : VaultState) (owner_username : Bytes) :
    List Credential :=
  st.database.select_owned_credentials owner_username

/-- The decrypt-and-compare scan of `Vault::load_credential`
(vault.rs:266-271): for each owned credential, decrypt its name with `?`
— so the first undecryptable name aborts the whole load with an error —
and return the first match. -/
def scan_credentials (creds : List Credential) (key name : Bytes) :
    Option Credential :=
  match creds with
  | [] => none
  | c :: rest =>
      match c.name key with
      | none => none
      | some nm => if nm = name then some c else scan_credentials rest key name

/-- `Vault::load_credential` (vault.rs:254-277).  `none` covers both error
outcomes of the Rust function (an aborted scan and "no credentials
named ..."), which `create_credential` does not distinguish. -/
def Vault.load_credential (st : VaultState) (owner_username name key : Bytes) :
    Option Credential :=
  scan_credentials (Vault.load_account_credentials st owner_username) key name

/-- `Vault::create_credential` (vault.rs:186-225): build the credential,
refuse if `load_credential` *succeeds*, else insert in a transaction and
commit. -/
def Vault.create_credential (st : VaultState)
    (owner_username key name username password notes : Bytes)
    (n1 n2 n3 n4 : Bytes) : Option Unit × VaultState :=
  let credential :=
    Credential.try_new owner_username key name username password notes n1 n2 n3 n4
  if (Vault.load_credential st owner_username name key).isSome then (none, st)
  else
    match st.database.insert_credential credential with
    | none => (none, st)
    | some db2 => (some (), { st with database := db2 })

/-- `Vault::delete_credential` (vault.rs:228-251): load to obtain the
stored name cipherbytes (the PK component), then delete in a transaction. -/
def Vault.delete_credential (st : VaultState) (owner_username name key : Bytes) :
    Option Unit × VaultState :=
  match Vault.load_credential st owner_username name key with
  | none => (none, st)
  | some cred =>
      match st.database.delete_credential owner_username
          cred.encrypted_name.cipherbytes with
      | none => (none, st)
      | some db2 => (some (), { st with database := db2 })

/-- The logical field selected by the `(cipherbytes_field, nonce_field)`
pair that callers pass to `Vault::update_credential` (the
`CredentialUpdateField` pairs; the name columns have no update variant). -/
inductive CredentialLogicalField where
  | username
  | password
  | notes
  deriving DecidableEq

/-- The first `UPDATE` of `Vault::update_credential`: set the chosen
field's cipherbytes column. -/
def Credential.set_field_cipherbytes (f : CredentialLogicalField) (c : GcmCipher)
    (cred : Credential) : Credential :=
  match f with
  | .username => { cred with encrypted_username := ⟨c, cred.encrypted_username.nonce⟩ }
  | .password => { cred with encrypted_password := ⟨c, cred.encrypted_password.nonce⟩ }
  | .notes => { cred with encrypted_notes := ⟨c, cred.encrypted_notes.nonce⟩ }

/-- The second `UPDATE` of `Vault::update_credential`: set the chosen
field's nonce column. -/
def Credential.set_field_nonce (f : CredentialLogicalField) (n : Bytes)
    (cred : Credential) : Credential :=
  match f with
  | .username => { cred with encrypted_username := ⟨cred.encrypted_username.cipherbytes, n⟩ }
  | .password => { cred with encrypted_password := ⟨cred.encrypted_password.cipherbytes, n⟩ }
  | .notes => { cred with encrypted_notes := ⟨cred.encrypted_notes.cipherbytes, n⟩ }

/-- `Vault::update_credential` (vault.rs:289-330): load the credential,
re-seal the new value with a fresh nonce, then in one transaction update
the cipherbytes column and the nonce column of the selected field. -/
def Vault.update_credential (st : VaultState) (owner_username name key : Bytes)
    (f : CredentialLogicalField) (new_value nonce : Bytes) :
    Option Unit × VaultState :=
  match Vault.load_credential st owner_username name key with
  | none => (none, st)
  | some cred =>
      let env := Encrypted.new new_value key nonce
      let upd :=
        (st.database.update_credential owner_username cred.encrypted_name.cipherbytes
          (Credential.set_field_cipherbytes f env.cipherbytes)).bind
        fun db => db.update_credential owner_username cred.encrypted_name.cipherbytes
          (Credential.set_field_nonce f env.nonce)
      match upd with
      | none => (none, st)
      | some db2 => (some (), { st with database := db2 })

/-- `Vault::create_file` (vault.rs:335-368): derive the path, seal the
contents (fresh nonce passed explicitly), build the `FileData`, open a
transaction, insert it, create the file exclusively with the
cipherbytes, commit; any failure rolls the insert back. -/
def Vault.create_file (st : VaultState) (filename owner_username : Bytes)
    (contents key nonce : Bytes) : Option Unit × VaultState :=
  match get_file_path st.fs st.filesystem_directory owner_username filename with
  | none => (none, st)
  | some file_path =>
      let encrypted_contents := Encrypted.new contents key nonce
      let file_data : FileData :=
        ⟨file_path, filename, owner_username, encrypted_contents.nonce⟩
      match st.database.insert_file_data file_data with
      | none => (none, st)
      | some db2 =>
          match new_file st.fs file_path encrypted_contents.cipherbytes with
          | none => (none, st)
          | some fs2 => (some (), { st with database := db2, fs := fs2 })

/-- `Vault::delete_file` (vault.rs:372-386). -/
def Vault.delete_file (st : VaultState) (username filename : Bytes) :
    Option Unit × VaultState :=
  match get_file_path st.fs st.filesystem_directory username filename with
  | none => (none, st)
  | some file_path =>
      match st.database.delete_file_data file_path with
      | none => (none, st)
      | some db2 =>
          match remove_file st.fs file_path with
          | none => (none, st)
          | some fs2 => (some (), { st with database := db2, fs := fs2 })

/-- `Vault::load_file` (vault.rs:389-412): derive the path, select the
`FileData`, open and read the blob, rebuild the sealed record from the
blob bytes and the stored nonce, decrypt under `key`. -/
def Vault.load_file (st : VaultState) (username filename key : Bytes) :
    Option (FileData × Bytes) :=
  match get_file_path st.fs st.filesystem_directory username filename with
  | none => none
  | some file_path =>
      match st.database.select_file_data file_path with
      | none => none
      | some file_data =>
          match fsLookup st.fs file_path with
          | some (.file cipher) =>
              match (Encrypted.from_fields cipher file_data.contents_nonce).try_decrypt_bytes key with
              | none => none
              | some contents => some (file_data, contents)
          | _ => none

/-- `Vault::update_file` (vault.rs:424-453): derive the path, seal the new
contents, update the row's nonce (exactly one row), truncate-and-write
the blob, commit. -/
def Vault.update_file (st : VaultState) (username filename key : Bytes)
    (new_file_contents nonce : Bytes) : Option Unit × VaultState :=
  match get_file_path st.fs st.filesystem_directory username filename with
  | none => (none, st)
  | some file_path =>
      let encrypted_contents := Encrypted.new new_file_contents key nonce
      match st.database.update_file_data_nonce file_path encrypted_contents.nonce with
      | none => (none, st)
      | some db2 =>
          match write_file st.fs file_path encrypted_contents.cipherbytes with
          | none => (none, st)
          | some fs2 => (some (), { st with database := db2, fs := fs2 })

/-- The vault states reachable through the public `Vault` API from a fresh
store: `Vault::connect` requires the data directory to exist as a
writable directory and the (schema-initialised, empty) database file to
exist; every public mutation then steps the state, whether it succeeds
or fails.  The CSPRNG outputs of each step are arbitrary. -/
inductive Reachable : VaultState → Prop where
  | init (fs : Filesystem) (dir : Path)
      (hdir : fsLookup fs dir = some (.dir false)) :
      Reachable ⟨⟨[], [], []⟩, fs, dir⟩
  | create_new_account (st : VaultState) (u p key s1 s2 nc : Bytes) :
      Reachable st → Reachable (Vault.create_new_account st u p key s1 s2 nc).snd
  | delete_account (st : VaultState) (u : Bytes) :
      Reachable st → Reachable (Vault.delete_account st u).snd
  | change_account_password (st : VaultState) (u p1 p2 s1 s2 nc : Bytes) :
      Reachable st → Reachable (Vault.change_account_password st u p1 p2 s1 s2 nc).snd
  | create_credential (st : VaultState) (o key nm cu cp cn n1 n2 n3 n4 : Bytes) :
      Reachable st → Reachable (Vault.create_credential st o key nm cu cp cn n1 n2 n3 n4).snd
  | delete_credential (st : VaultState) (o nm key : Bytes) :
      Reachable st → Reachable (Vault.delete_credential st o nm key).snd
  | update_credential (st : VaultState) (o nm key : Bytes)
      (f : CredentialLogicalField) (v nc : Bytes) :
      Reachable st → Reachable (Vault.update_credential st o nm key f v nc).snd
  | create_file (st : VaultState) (fn o c key nc : Bytes) :
      Reachable st → Reachable (Vault.create_file st fn o c key nc).snd
  | delete_file (st : VaultState) (u fn : Bytes) :
      Reachable st → Reachable (Vault.delete_file st u fn).snd
  | update_file (st : VaultState) (u fn key c nc : Bytes) :
      Reachable st → Reachable (Vault.update_file st u fn key c nc).snd

/-! ## C1: filesystem-failure rollback of `Vault::create_file` -/

/-- **C1.** Whenever an entry already exists on disk at the derived path
`<data_dir>/<owner>/<filename>`, `Vault::create_file` returns an error
and the call leaves the state — in particular the metadata store, so no
`files_data` row for that path — exactly as it was before the call:
`File::create_new` fails after the transactional insert, and the
transaction is dropped without commit (spec P7). -/
theorem create_file_existing_path_fails (st : VaultState)
    (filename owner_username contents key nonce : Bytes)
    (h : (fsLookup st.fs
        (pathPush (pathPush st.filesystem_directory owner_username) filename)).isSome
          = true) :
    Vault.create_file st filename owner_username contents key nonce = (none, st) := by
  unfold Vault.create_file
  dsimp only
  cases hp : get_file_path st.fs st.filesystem_directory owner_username filename with
  | none => rfl
  | some file_path =>
      have hfp : file_path
          = pathPush (pathPush st.filesystem_directory owner_username) filename := by
        unfold get_file_path get_account_file_dir at hp
        dsimp only at hp
        by_cases hv : verify_writeable_dir st.fs
            (pathPush st.filesystem_directory owner_username) = true
        · rw [if_pos hv] at hp
          simpa using hp.symm
        · rw [if_neg hv] at hp
          simp at hp
      subst hfp
      dsimp only
      cases hins : st.database.insert_file_data
          ⟨pathPush (pathPush st.filesystem_directory owner_username) filename,
            filename, owner_username,
            (Encrypted.new contents key nonce).nonce⟩ with
      | none => rfl
      | some db2 =>
          have hnf : new_file st.fs
              (pathPush (pathPush st.filesystem_directory owner_username) filename)
              (Encrypted.new contents key nonce).cipherbytes = none := by
            unfold new_file
            rw [if_pos h]
          rw [hnf]

/-- A concrete state for the C1 witness: account `[117]` exists, its
directory exists, and a file already sits at
`<data_dir>/[117]/[102]` — while the metadata store has no row for it. -/
def stC1 : VaultState :=
  { database :=
      { accounts := [Account.new [117] [1] [9] [3] [4] [5]]
        credentials := []
        files_data := [] }
    fs :=
      [([[100]], .dir false),
       ([[100], [117]], .dir false),
       ([[100], [117], [102]], .file ⟨[], [0]⟩)]
    filesystem_directory := [[100]] }

/-- Witness for C1: creating file `[102]` for owner `[117]` over the
pre-existing blob fails and returns the unchanged state. -/
theorem create_file_existing_path_fails_witness :
    Vault.create_file stC1 [102] [117] [99] [1] [2] = (none, stC1) :=
  create_file_existing_path_fails stC1 [102] [117] [99] [1] [2] (by decide)

/-! ## C10: account loads require the writable account directory -/

/-- **C10.** `Vault::load_account` — and `Vault::load_unlocked_account`,
which routes through it — fails whenever `<data_dir>/<username>` does not
exist, is not a directory, or is read-only, regardless of the contents
of the metadata store: `get_account_file_dir` verifies the directory
before the database is consulted. -/
theorem load_account_requires_writable_dir (st : VaultState)
    (username password : Bytes)
    (h : verify_writeable_dir st.fs
        (pathPush st.filesystem_directory username) = false) :
    Vault.load_account st username = .error .dirError ∧
    Vault.load_unlocked_account st username password = .error .dirError := by
  have hga : get_account_file_dir st.fs st.filesystem_directory username = none := by
    unfold get_account_file_dir
    simp [h]
  have hla : Vault.load_account st username = .error .dirError := by
    unfold Vault.load_account
    rw [hga]
  refine ⟨hla, ?_⟩
  unfold Vault.load_unlocked_account
  rw [hla]

/-- A concrete state for the C10 witness: a matching account row exists in
the database, but the account's directory is absent from the
filesystem. -/
def stC10 : VaultState :=
  { database :=
      { accounts := [Account.new [117] [1] [9] [3] [4] [5]]
        credentials := []
        files_data := [] }
    fs := [([[100]], .dir false)]
    filesystem_directory := [[100]] }

/-- Witness for C10: the row for `[117]` is present, its directory is not,
and both loads fail with the directory error. -/
theorem load_account_requires_writable_dir_witness :
    Vault.load_account stC10 [117] = .error .dirError ∧
    Vault.load_unlocked_account stC10 [117] [1] = .error .dirError :=
  load_account_requires_writable_dir stC10 [117] [1] (by decide)

/-! ## C3 / C9: the uniqueness guard of `Vault::create_credential` -/

/-- If every scanned credential's name decrypts under `key` and some
scanned credential's name decrypts to `name`, the decrypt-and-compare
scan finds a match. -/
theorem scan_credentials_finds (creds : List Credential) (key name : Bytes)
    (hall : ∀ c ∈ creds, (c.name key).isSome)
    (hex : ∃ c ∈ creds, c.name key = some name) :
    (scan_credentials creds key name).isSome = true := by
  induction creds with
  | nil =>
      rcases hex with ⟨c, hc, _⟩
      cases hc
  | cons c rest ih =>
      obtain ⟨nm, hnm⟩ :=
        Option.isSome_iff_exists.mp (hall c (List.mem_cons_self c rest))
      unfold scan_credentials
      rw [hnm]
      dsimp only
      by_cases hname : nm = name
      · rw [if_pos hname]; rfl
      · rw [if_neg hname]
        refine ih (fun x hx => hall x (List.mem_cons_of_mem c hx)) ?_
        rcases hex with ⟨x, hx, hxn⟩
        rcases List.mem_cons.mp hx with rfl | hx2
        · rw [hnm] at hxn
          exact absurd (Option.some.inj hxn) hname
        · exact ⟨x, hx2, hxn⟩

/-- **C3 (amended).** The uniqueness guard refuses the create — with no
insert, state unchanged — provided the decrypt-and-compare scan runs to
completion: if *every* credential owned by `owner_username` has a name
that decrypts under `key`, and one of them decrypts to `name`, then
`create_credential` returns an error and the state is exactly the
pre-call state.  (Without the all-decryptable proviso the guard can be
bypassed: see the counterexample, where an earlier undecryptable name
aborts the scan and the duplicate is inserted.) -/
theorem create_credential_refuses_duplicate (st : VaultState)
    (owner_username key name username password notes n1 n2 n3 n4 : Bytes)
    (hall : ∀ c ∈ Vault.load_account_credentials st owner_username,
        (c.name key).isSome)
    (hex : ∃ c ∈ Vault.load_account_credentials st owner_username,
        c.name key = some name) :
    Vault.create_credential st owner_username key name username password notes
      n1 n2 n3 n4 = (none, st) := by
  have hload : (Vault.load_credential st owner_username name key).isSome = true :=
    scan_credentials_finds _ key name hall hex
  unfold Vault.create_credential
  dsimp only
  rw [if_pos hload]

/-- A concrete state for C3/C9.  Account `[10]` owns two credentials, in
rowid order: first one sealed under the *other* key `[2, 2]`, then one
whose name decrypts under key `[1]` to `[42]`. -/
def stC3 : VaultState :=
  { database :=
      { accounts := [Account.new [10] [99] [7] [3] [4] [5]]
        credentials :=
          [Credential.try_new [10] [2, 2] [5] [5] [5] [5] [61] [62] [63] [64],
           Credential.try_new [10] [1] [42] [6] [6] [6] [71] [72] [73] [74]]
        files_data := [] }
    fs := [([[100]], .dir false), ([[100], [10]], .dir false)]
    filesystem_directory := [[100]] }

/-- **C3, counterexample.**  In `stC3` a credential owned by `[10]` whose
name decrypts under key `[1]` to `[42]` already exists, yet
`create_credential` for that same plaintext name does *not* refuse: the
scan hits the foreign-key credential first, its name fails to decrypt,
the `?` aborts `load_credential` with an error, `is_ok()` is false, and
the duplicate insert goes through. -/
theorem create_credential_duplicate_name_inserted :
    (∃ c ∈ Vault.load_account_credentials stC3 [10], c.name [1] = some [42]) ∧
    (Vault.create_credential stC3 [10] [1] [42] [8] [8] [8]
        [81] [82] [83] [84]).fst = some () := by
  constructor
  · decide
  · decide

/-- Witness-side content of C3's amended theorem: with a single owned,
decryptable credential whose name is `[42]`, the duplicate create is
refused and the state unchanged. -/
def stC3b : VaultState :=
  { database :=
      { accounts := [Account.new [10] [99] [7] [3] [4] [5]]
        credentials := [Credential.try_new [10] [1] [42] [6] [6] [6] [71] [72] [73] [74]]
        files_data := [] }
    fs := [([[100]], .dir false), ([[100], [10]], .dir false)]
    filesystem_directory := [[100]] }

/-- Witness for the amended C3. -/
theorem create_credential_refuses_duplicate_witness :
    Vault.create_credential stC3b [10] [1] [42] [8] [8] [8] [81] [82] [83] [84]
      = (none, stC3b) :=
  create_credential_refuses_duplicate stC3b [10] [1] [42] [8] [8] [8]
    [81] [82] [83] [84] (by decide) (by decide)

/-- **C9.** Whenever `load_credential` returns any error — `none` covers
both the aborted decrypt-and-compare scan (an AEAD failure on some
existing credential sealed under a different key) and plain not-found —
the guard `if self.load_credential(..).is_ok()` treats the name as free
and the insert proceeds: with the foreign key satisfied and the fresh
primary key unused, `create_credential` succeeds and appends the new
row. -/
theorem create_credential_inserts_when_load_fails (st : VaultState)
    (owner_username key name username password notes n1 n2 n3 n4 : Bytes)
    (hload : Vault.load_credential st owner_username name key = none)
    (hfk : st.database.accounts.any
        (fun a => a.username == owner_username) = true)
    (hpk : st.database.credentials.any (fun c0 =>
        c0.owner_username == owner_username
          && c0.encrypted_name.cipherbytes
              == (Encrypted.new name key n1).cipherbytes) = false) :
    Vault.create_credential st owner_username key name username password notes
        n1 n2 n3 n4
      = (some (), { st with database := { st.database with credentials :=
          st.database.credentials ++
            [Credential.try_new owner_username key name username password notes
              n1 n2 n3 n4] } }) := by
  have hins : st.database.insert_credential
      (Credential.try_new owner_username key name username password notes
        n1 n2 n3 n4)
      = some { st.database with credentials := st.database.credentials ++
          [Credential.try_new owner_username key name username password notes
            n1 n2 n3 n4] } := by
    unfold Database.insert_credential
    dsimp only [Credential.try_new]
    rw [hfk, hpk]
    rfl
  unfold Vault.create_credential
  dsimp only
  rw [hload]
  simp only [Option.isSome_none, Bool.false_eq_true, if_false]
  rw [hins]

/-- Witness for C9, on `stC3`: the scan aborts at the foreign-key
credential, and the duplicate plaintext name `[42]` is appended — after
the call two credentials owned by `[10]` decrypt to the same name. -/
theorem create_credential_inserts_when_load_fails_witness :
    Vault.create_credential stC3 [10] [1] [42] [8] [8] [8] [81] [82] [83] [84]
      = (some (), { stC3 with database := { stC3.database with credentials :=
          stC3.database.credentials ++
            [Credential.try_new [10] [1] [42] [8] [8] [8] [81] [82] [83] [84]] } }) :=
  create_credential_inserts_when_load_fails stC3 [10] [1] [42] [8] [8] [8]
    [81] [82] [83] [84] (by decide) (by decide) (by decide)

/-! ## C2: password change preserves the data-encryption key -/

/-- The ideal KDF is injective in the hashed input for a fixed salt. -/
theorem pbkdf2_inj (x y salt : Bytes) (h : pbkdf2 x salt = pbkdf2 y salt) :
    x = y := by
  simp only [pbkdf2, List.cons.injEq] at h
  exact List.append_cancel_right h.2

theorem select_account_any (db : Database) (u : Bytes) (acc : Account)
    (h : db.select_account u = some acc) :
    db.accounts.any (fun x => x.username == u) = true := by
  unfold Database.select_account at h
  exact List.any_eq_true.mpr
    ⟨acc, List.mem_of_find?_eq_some (p := fun (a : Account) => a.username == u) h,
      List.find?_some (p := fun (a : Account) => a.username == u) h⟩

/-- A single-column update (which never touches the `username` key) leaves
the set of rows matched by a username selector unchanged. -/
theorem any_username_map (l : List Account) (u : Bytes) (g : Account → Account)
    (hg : ∀ a, (g a).username = a.username) :
    (l.map (fun x => if x.username == u then g x else x)).any
        (fun x => x.username == u)
      = l.any (fun x => x.username == u) := by
  induction l with
  | nil => rfl
  | cons a t ih =>
      simp only [List.map_cons, List.any_cons, ih]
      cases h : (a.username == u) with
      | true => simp [hg a, h]
      | false => simp [h]

/-- Selecting by username after a single-column update returns the updated
row. -/
theorem find_username_map (l : List Account) (u : Bytes) (g : Account → Account)
    (hg : ∀ a, (g a).username = a.username) :
    (l.map (fun x => if x.username == u then g x else x)).find?
        (fun x => x.username == u)
      = (l.find? (fun x => x.username == u)).map g := by
  induction l with
  | nil => rfl
  | cons a t ih =>
      simp only [List.map_cons]
      cases h : (a.username == u) with
      | true =>
          have hh : (if (true : Bool) = true then g a else a) = g a := if_pos rfl
          rw [hh]
          rw [List.find?_cons_of_pos (p := fun (x : Account) => x.username == u) _
              (by simpa [hg a] using h),
            List.find?_cons_of_pos (p := fun (x : Account) => x.username == u) _ h]
          rfl
      | false =>
          have hh : (if (false : Bool) = true then g a else a) = a := by
            simp
          rw [hh]
          rw [List.find?_cons_of_neg (p := fun (x : Account) => x.username == u) _
              (by simp [h]),
            List.find?_cons_of_neg (p := fun (x : Account) => x.username == u) _ (by simp [h])]
          exact ih

theorem update_account_eq (db : Database) (u : Bytes) (g : Account → Account)
    (h : db.accounts.any (fun x => x.username == u) = true) :
    db.update_account u g
      = some { db with accounts :=
          db.accounts.map (fun x => if x.username == u then g x else x) } := by
  unfold Database.update_account
  rw [if_pos h]

/-- Unlocking an account whose stored fields wrap the key `key0` for the
password `p` (fresh salts `s1`, `s2`, nonce `nc`) succeeds and recovers
exactly `key0`. -/
theorem unlock_fresh_wrap (username0 key0 p s1 s2 nc : Bytes) :
    Account.unlock
      { username := username0
        password_salt := s1
        dbl_hashed_password := Hashed.from_salt (Hashed.from_salt p s1).hash s2
        encrypted_key := Encrypted.new key0 (Hashed.from_salt p s1).hash nc } p
      = .ok { username := username0
              password := p
              hashed_password := Hashed.from_salt p s1
              dbl_hashed_password :=
                Hashed.from_salt (Hashed.from_salt p s1).hash s2
              key := key0
              encrypted_key :=
                Encrypted.new key0 (Hashed.from_salt p s1).hash nc } := by
  unfold Account.unlock
  dsimp only [Hashed.from_salt]
  rw [if_neg (not_not_intro rfl)]
  have hdec : Encrypted.decrypt
      (Encrypted.new key0 (pbkdf2 p s1) nc) (pbkdf2 p s1) = some key0 :=
    aeadDecrypt_aeadEncrypt (pbkdf2 p s1) nc key0
  rw [hdec]

/-- Unlocking the same stored record with any password `q ≠ p` fails at the
double-hash comparison with the incorrect-password error. -/
theorem unlock_fresh_wrap_wrong (username0 key0 p q s1 s2 nc : Bytes)
    (hne : q ≠ p) :
    Account.unlock
      { username := username0
        password_salt := s1
        dbl_hashed_password := Hashed.from_salt (Hashed.from_salt p s1).hash s2
        encrypted_key := Encrypted.new key0 (Hashed.from_salt p s1).hash nc } q
      = .error .incorrectPassword := by
  unfold Account.unlock
  dsimp only [Hashed.from_salt]
  rw [if_pos]
  intro hcon
  exact hne (pbkdf2_inj q p s1 (pbkdf2_inj (pbkdf2 q s1) (pbkdf2 p s1) s2 hcon))

/-- Characterisation of a successful `Vault::change_account_password`: it
commits exactly the five single-column updates, i.e. it replaces the
selected row's `password_salt`, double hash and wrapped key with the
fields of the re-wrapped unlocked account, touching nothing else. -/
theorem change_account_password_eq (st : VaultState)
    (u p_old p_new s1 s2 nc : Bytes) (ua : SecureFields)
    (hu : Vault.load_unlocked_account st u p_old = .ok ua)
    (hany : st.database.accounts.any (fun x => x.username == u) = true) :
    Vault.change_account_password st u p_old p_new s1 s2 nc
      = (some (),
          { st with
              database :=
                { st.database with
                    accounts :=
                      st.database.accounts.map (fun x =>
                        if x.username == u then
                          { x with
                              password_salt :=
                                (ua.change_password p_new s1 s2 nc).hashed_password.salt
                              dbl_hashed_password :=
                                (ua.change_password p_new s1 s2 nc).dbl_hashed_password
                              encrypted_key :=
                                (ua.change_password p_new s1 s2 nc).encrypted_key }
                        else x) } }) := by
  unfold Vault.change_account_password
  rw [hu]
  dsimp only
  rw [update_account_eq _ _ _ hany]
  dsimp only [Option.bind]
  rw [update_account_eq]
  dsimp only [Option.bind]
  rw [update_account_eq]
  dsimp only [Option.bind]
  rw [update_account_eq]
  dsimp only [Option.bind]
  rw [update_account_eq]
  dsimp only [Option.bind]
  · rw [List.map_map, List.map_map, List.map_map, List.map_map]
    rw [List.map_congr_left
      (g := (fun x =>
        if x.username == u then
          { x with
              password_salt :=
                (ua.change_password p_new s1 s2 nc).hashed_password.salt
              dbl_hashed_password :=
                (ua.change_password p_new s1 s2 nc).dbl_hashed_password
              encrypted_key :=
                (ua.change_password p_new s1 s2 nc).encrypted_key }
        else x))
      (fun x _ => by
        cases h : (x.username == u) with
        | true => simp [Function.comp, h]
        | false => simp [Function.comp, h])]
  all_goals
    dsimp only
    repeat rw [any_username_map]
  all_goals
    first
      | exact hany
      | (intro a
         cases hh : (a.username == u) with
         | true => simp [hh]
         | false => simp [hh])

/-- **C2.** After a successful `change_account_password(u, p_old, p_new)`,
the account's data-encryption key is unchanged: unlocking with `p_new`
succeeds and yields the same key that unlocking with `p_old` yielded
before the change; unlocking with `p_old` now fails with the
incorrect-password error; and the credential rows, the file rows and the
filesystem are untouched, so in particular every file load is unchanged
(everything sealed under the key still decrypts to its old plaintext). -/
theorem change_password_preserves_key (st : VaultState)
    (u p_old p_new s1 s2 nc : Bytes) (ua : SecureFields) (st' : VaultState)
    (hu : Vault.load_unlocked_account st u p_old = .ok ua)
    (hch : Vault.change_account_password st u p_old p_new s1 s2 nc
      = (some (), st')) :
    (∃ ua', Vault.load_unlocked_account st' u p_new = .ok ua'
      ∧ ua'.key = ua.key) ∧
    (p_old ≠ p_new →
      Vault.load_unlocked_account st' u p_old = .error .incorrectPassword) ∧
    st'.fs = st.fs ∧
    st'.database.files_data = st.database.files_data ∧
    st'.database.credentials = st.database.credentials ∧
    (∀ u2 f2 k2, Vault.load_file st' u2 f2 k2 = Vault.load_file st u2 f2 k2) := by
  obtain ⟨acc, hla, hunl⟩ :
      ∃ acc, Vault.load_account st u = .ok acc ∧ acc.unlock p_old = .ok ua := by
    unfold Vault.load_unlocked_account at hu
    cases hla : Vault.load_account st u with
    | error e => rw [hla] at hu; exact absurd hu (by simp)
    | ok acc => rw [hla] at hu; exact ⟨acc, rfl, hu⟩
  obtain ⟨d, hd, hs⟩ :
      ∃ d, get_account_file_dir st.fs st.filesystem_directory u = some d
        ∧ st.database.select_account u = some acc := by
    unfold Vault.load_account at hla
    cases hd : get_account_file_dir st.fs st.filesystem_directory u with
    | none => rw [hd] at hla; exact absurd hla (by simp)
    | some d =>
        rw [hd] at hla
        dsimp only at hla
        cases hs : st.database.select_account u with
        | none => rw [hs] at hla; exact absurd hla (by simp)
        | some a => rw [hs] at hla; dsimp only at hla; cases hla; exact ⟨d, rfl, rfl⟩
  have hany := select_account_any st.database u acc hs
  have hceq := change_account_password_eq st u p_old p_new s1 s2 nc ua hu hany
  rw [hceq] at hch
  rw [Prod.mk.injEq] at hch
  have hst : st'
      = { st with
            database :=
              { st.database with
                  accounts :=
                    st.database.accounts.map (fun x =>
                      if x.username == u then
                        { x with
                            password_salt :=
                              (ua.change_password p_new s1 s2 nc).hashed_password.salt
                            dbl_hashed_password :=
                              (ua.change_password p_new s1 s2 nc).dbl_hashed_password
                            encrypted_key :=
                              (ua.change_password p_new s1 s2 nc).encrypted_key }
                      else x) } } := hch.2.symm
  have hselNew : st'.database.select_account u
      = some { acc with
                 password_salt :=
                   (ua.change_password p_new s1 s2 nc).hashed_password.salt
                 dbl_hashed_password :=
                   (ua.change_password p_new s1 s2 nc).dbl_hashed_password
                 encrypted_key :=
                   (ua.change_password p_new s1 s2 nc).encrypted_key } := by
    rw [hst]
    unfold Database.select_account
    dsimp only
    rw [find_username_map]
    · rw [show st.database.accounts.find? (fun (a : Account) => a.username == u)
          = some acc from hs]
      rfl
    · intro a; cases hh : (a.username == u) <;> simp [hh]
  have hloadAny : ∀ q, Vault.load_unlocked_account st' u q
      = Account.unlock
          { acc with
              password_salt :=
                (ua.change_password p_new s1 s2 nc).hashed_password.salt
              dbl_hashed_password :=
                (ua.change_password p_new s1 s2 nc).dbl_hashed_password
              encrypted_key :=
                (ua.change_password p_new s1 s2 nc).encrypted_key } q := by
    intro q
    have hd2 : get_account_file_dir st'.fs st'.filesystem_directory u = some d := by
      rw [hst]; exact hd
    unfold Vault.load_unlocked_account Vault.load_account
    rw [hd2]
    dsimp only
    rw [hselNew]
  refine ⟨?_, ?_, by rw [hst], by rw [hst], by rw [hst], ?_⟩
  · refine ⟨{ username := acc.username
              password := p_new
              hashed_password := Hashed.from_salt p_new s1
              dbl_hashed_password :=
                Hashed.from_salt (Hashed.from_salt p_new s1).hash s2
              key := ua.key
              encrypted_key :=
                Encrypted.new ua.key (Hashed.from_salt p_new s1).hash nc },
      ?_, rfl⟩
    rw [hloadAny p_new]
    exact unlock_fresh_wrap acc.username ua.key p_new s1 s2 nc
  · intro hne
    rw [hloadAny p_old]
    exact unlock_fresh_wrap_wrong acc.username ua.key p_new p_old s1 s2 nc hne
  · intro u2 f2 k2
    rw [hst]
    rfl

/-- A concrete state for the C2 witness: one account `[117]` created with
password `[1]`, whose directory exists. -/
def stC2 : VaultState :=
  { database :=
      { accounts := [Account.new [117] [1] [9] [3] [4] [5]]
        credentials := []
        files_data := [] }
    fs := [([[100]], .dir false), ([[100], [117]], .dir false)]
    filesystem_directory := [[100]] }

/-- The unlocked view of `stC2`'s account under its original password. -/
def uaC2 : SecureFields :=
  { username := [117]
    password := [1]
    hashed_password := Hashed.from_salt [1] [3]
    dbl_hashed_password := Hashed.from_salt (Hashed.from_salt [1] [3]).hash [4]
    key := [9]
    encrypted_key := Encrypted.new [9] (Hashed.from_salt [1] [3]).hash [5] }

/-- Witness for C2: after changing `[117]`'s password from `[1]` to `[2]`,
unlocking with the old password `[1]` fails with the incorrect-password
error. -/
theorem change_password_preserves_key_witness :
    Vault.load_unlocked_account
        (Vault.change_account_password stC2 [117] [1] [2] [6] [7] [8]).snd
        [117] [1] = .error .incorrectPassword :=
  (change_password_preserves_key stC2 [117] [1] [2] [6] [7] [8] uaC2
      (Vault.change_account_password stC2 [117] [1] [2] [6] [7] [8]).snd
      (by decide) (by decide)).2.1 (by decide)

/-! ## C8: no reachable state stores an account with an empty username -/

theorem pathPush_nil (p : Path) : pathPush p [] = p := if_pos rfl

theorem pathPush_ne (p : Path) (s : Bytes) (h : s ≠ []) :
    pathPush p s = p ++ [s] := if_neg h

theorem fsLookup_isSome_iff (fs : Filesystem) (q : Path) :
    (fsLookup fs q).isSome = true ↔ ∃ pe ∈ fs, pe.fst = q := by
  unfold fsLookup
  cases hf : fs.find? (fun e => e.fst == q) with
  | none =>
      simp only [Option.map_none', Option.isSome_none, Bool.false_eq_true, false_iff]
      rintro ⟨pe, hmem, hq⟩
      have hnone := List.find?_eq_none.mp hf pe hmem
      simp [hq] at hnone
  | some pe =>
      simp only [Option.map_some', Option.isSome_some, true_iff]
      exact ⟨pe, List.mem_of_find?_eq_some hf,
        beq_iff_eq.mp
          (List.find?_some (p := fun (e : Path × FsEntry) => e.fst == q) hf)⟩

theorem isPrefixOf_false_of_lt (p q : Path) (h : q.length < p.length) :
    p.isPrefixOf q = false := by
  cases hp : p.isPrefixOf q with
  | false => rfl
  | true =>
      have hle := (List.isPrefixOf_iff_prefix.mp hp).length_le
      omega

/-- The vault-level invariant carried through every public operation:
the data directory has a filesystem entry; every stored account has a
non-empty username; every `files_data` row's path sits exactly two
components below the data directory. -/
abbrev Inv (st : VaultState) : Prop :=
  (fsLookup st.fs st.filesystem_directory).isSome = true
  ∧ (∀ a ∈ st.database.accounts, a.username ≠ ([] : Bytes))
  ∧ (∀ fd ∈ st.database.files_data,
      fd.path.length = st.filesystem_directory.length + 2)

theorem insert_account_spec (db db' : Database) (a : Account)
    (h : db.insert_account a = some db') :
    db'.accounts = db.accounts ++ [a] ∧ db'.credentials = db.credentials
      ∧ db'.files_data = db.files_data := by
  unfold Database.insert_account at h
  by_cases hc : db.accounts.any (fun x => x.username == a.username) = true
  · rw [if_pos hc] at h; exact absurd h (by simp)
  · rw [if_neg hc] at h; cases h; exact ⟨rfl, rfl, rfl⟩

theorem delete_account_spec (db db' : Database) (u : Bytes)
    (h : db.delete_account u = some db') :
    (∃ a ∈ db.accounts, a.username = u)
      ∧ db'.accounts = db.accounts.filter (fun x => !(x.username == u))
      ∧ db'.credentials = db.credentials.filter (fun c => !(c.owner_username == u))
      ∧ db'.files_data = db.files_data.filter (fun f => !(f.owner_username == u)) := by
  unfold Database.delete_account at h
  by_cases hc : db.accounts.any (fun x => x.username == u) = true
  · rw [if_pos hc] at h
    cases h
    obtain ⟨a, hmem, ha⟩ := List.any_eq_true.mp hc
    exact ⟨⟨a, hmem, beq_iff_eq.mp ha⟩, rfl, rfl, rfl⟩
  · rw [if_neg hc] at h; exact absurd h (by simp)

theorem update_account_spec (db db' : Database) (u : Bytes) (g : Account → Account)
    (h : db.update_account u g = some db') :
    db'.accounts = db.accounts.map (fun x => if x.username == u then g x else x)
      ∧ db'.credentials = db.credentials ∧ db'.files_data = db.files_data := by
  unfold Database.update_account at h
  by_cases hc : db.accounts.any (fun x => x.username == u) = true
  · rw [if_pos hc] at h; cases h; exact ⟨rfl, rfl, rfl⟩
  · rw [if_neg hc] at h; exact absurd h (by simp)

theorem insert_credential_spec (db db' : Database) (c : Credential)
    (h : db.insert_credential c = some db') :
    db'.accounts = db.accounts ∧ db'.files_data = db.files_data := by
  unfold Database.insert_credential at h
  by_cases h1 : (!(db.accounts.any (fun a => a.username == c.owner_username))) = true
  · rw [if_pos h1] at h; exact absurd h (by simp)
  · rw [if_neg h1] at h
    by_cases h2 : db.credentials.any (fun c0 =>
        c0.owner_username == c.owner_username
          && c0.encrypted_name.cipherbytes == c.encrypted_name.cipherbytes) = true
    · rw [if_pos h2] at h; exact absurd h (by simp)
    · rw [if_neg h2] at h; cases h; exact ⟨rfl, rfl⟩

theorem delete_credential_spec (db db' : Database) (owner : Bytes) (cb : GcmCipher)
    (h : db.delete_credential owner cb = some db') :
    db'.accounts = db.accounts ∧ db'.files_data = db.files_data := by
  unfold Database.delete_credential at h
  by_cases hc : db.credentials.any (fun c0 =>
      c0.owner_username == owner && c0.encrypted_name.cipherbytes == cb) = true
  · rw [if_pos hc] at h; cases h; exact ⟨rfl, rfl⟩
  · rw [if_neg hc] at h; exact absurd h (by simp)

theorem update_credential_spec (db db' : Database) (owner : Bytes) (cb : GcmCipher)
    (g : Credential → Credential)
    (h : db.update_credential owner cb g = some db') :
    db'.accounts = db.accounts ∧ db'.files_data = db.files_data := by
  unfold Database.update_credential at h
  by_cases hc : db.credentials.any (fun c0 =>
      c0.owner_username == owner && c0.encrypted_name.cipherbytes == cb) = true
  · rw [if_pos hc] at h; cases h; exact ⟨rfl, rfl⟩
  · rw [if_neg hc] at h; exact absurd h (by simp)

theorem insert_file_data_spec (db db' : Database) (fd : FileData)
    (h : db.insert_file_data fd = some db') :
    (∃ a ∈ db.accounts, a.username = fd.owner_username)
      ∧ db'.accounts = db.accounts ∧ db'.credentials = db.credentials
      ∧ db'.files_data = db.files_data ++ [fd] := by
  unfold Database.insert_file_data at h
  by_cases h1 : (!(db.accounts.any (fun a => a.username == fd.owner_username))) = true
  · rw [if_pos h1] at h; exact absurd h (by simp)
  · rw [if_neg h1] at h
    by_cases h2 : db.files_data.any (fun f => f.path == fd.path) = true
    · rw [if_pos h2] at h; exact absurd h (by simp)
    · rw [if_neg h2] at h
      cases h
      have h1' : db.accounts.any (fun a => a.username == fd.owner_username) = true := by
        cases hx : db.accounts.any (fun a => a.username == fd.owner_username) with
        | true => rfl
        | false => rw [hx] at h1; simp at h1
      obtain ⟨a, hmem, ha⟩ := List.any_eq_true.mp h1'
      exact ⟨⟨a, hmem, beq_iff_eq.mp ha⟩, rfl, rfl, rfl⟩

theorem delete_file_data_spec (db db' : Database) (p : Path)
    (h : db.delete_file_data p = some db') :
    (∃ fd ∈ db.files_data, fd.path = p)
      ∧ db'.accounts = db.accounts ∧ db'.credentials = db.credentials
      ∧ db'.files_data = db.files_data.filter (fun f => !(f.path == p)) := by
  unfold Database.delete_file_data at h
  by_cases hc : db.files_data.any (fun f => f.path == p) = true
  · rw [if_pos hc] at h
    cases h
    obtain ⟨fd, hmem, hfd⟩ := List.any_eq_true.mp hc
    exact ⟨⟨fd, hmem, beq_iff_eq.mp hfd⟩, rfl, rfl, rfl⟩
  · rw [if_neg hc] at h; exact absurd h (by simp)

theorem update_file_data_nonce_spec (db db' : Database) (p : Path) (n : Bytes)
    (h : db.update_file_data_nonce p n = some db') :
    (∃ fd ∈ db.files_data, fd.path = p)
      ∧ db'.accounts = db.accounts ∧ db'.credentials = db.credentials
      ∧ db'.files_data = db.files_data.map (fun f =>
          if f.path == p then { f with contents_nonce := n } else f) := by
  unfold Database.update_file_data_nonce at h
  by_cases hc : db.files_data.any (fun f => f.path == p) = true
  · rw [if_pos hc] at h
    cases h
    obtain ⟨fd, hmem, hfd⟩ := List.any_eq_true.mp hc
    exact ⟨⟨fd, hmem, beq_iff_eq.mp hfd⟩, rfl, rfl, rfl⟩
  · rw [if_neg hc] at h; exact absurd h (by simp)

theorem verify_writeable_dir_isSome (fs : Filesystem) (p : Path)
    (h : verify_writeable_dir fs p = true) : (fsLookup fs p).isSome = true := by
  unfold verify_writeable_dir at h
  cases hl : fsLookup fs p with
  | none => rw [hl] at h; simp at h
  | some e => rfl

theorem get_account_file_dir_spec (fs : Filesystem) (fs_dir : Path) (u : Bytes)
    (d : Path) (h : get_account_file_dir fs fs_dir u = some d) :
    verify_writeable_dir fs (pathPush fs_dir u) = true ∧ d = pathPush fs_dir u := by
  unfold get_account_file_dir at h
  dsimp only at h
  by_cases hv : verify_writeable_dir fs (pathPush fs_dir u) = true
  · rw [if_pos hv] at h; cases h; exact ⟨hv, rfl⟩
  · rw [if_neg hv] at h; exact absurd h (by simp)

theorem get_file_path_spec (fs : Filesystem) (fs_dir : Path) (u f : Bytes)
    (p : Path) (h : get_file_path fs fs_dir u f = some p) :
    verify_writeable_dir fs (pathPush fs_dir u) = true
      ∧ p = pathPush (pathPush fs_dir u) f := by
  unfold get_file_path at h
  cases hd : get_account_file_dir fs fs_dir u with
  | none => rw [hd] at h; exact absurd h (by simp)
  | some d =>
      rw [hd] at h
      obtain ⟨hv, rfl⟩ := get_account_file_dir_spec _ _ _ _ hd
      simp only [Option.map_some', Option.some.injEq] at h
      exact ⟨hv, h.symm⟩

theorem new_account_file_dir_spec (fs fs2 : Filesystem) (fs_dir : Path) (u : Bytes)
    (h : new_account_file_dir fs fs_dir u = some fs2) :
    verify_writeable_dir fs fs_dir = true
      ∧ fsLookup fs (pathPush fs_dir u) = none
      ∧ fs2 = (pathPush fs_dir u, FsEntry.dir false) :: fs := by
  unfold new_account_file_dir at h
  by_cases hv : verify_writeable_dir fs fs_dir = true
  · rw [if_pos hv] at h
    dsimp only at h
    by_cases hl : (fsLookup fs (pathPush fs_dir u)).isSome = true
    · rw [if_pos hl] at h; exact absurd h (by simp)
    · rw [if_neg hl] at h
      cases h
      exact ⟨hv, Option.not_isSome_iff_eq_none.mp hl, rfl⟩
  · rw [if_neg hv] at h; exact absurd h (by simp)

theorem new_file_spec (fs fs2 : Filesystem) (p : Path) (c : GcmCipher)
    (h : new_file fs p c = some fs2) :
    fsLookup fs p = none ∧ fs2 = (p, FsEntry.file c) :: fs := by
  unfold new_file at h
  by_cases hl : (fsLookup fs p).isSome = true
  · rw [if_pos hl] at h; exact absurd h (by simp)
  · rw [if_neg hl] at h
    cases h
    exact ⟨Option.not_isSome_iff_eq_none.mp hl, rfl⟩

theorem write_file_spec (fs fs2 : Filesystem) (p : Path) (c : GcmCipher)
    (h : write_file fs p c = some fs2) :
    fs2 = (p, FsEntry.file c) :: fsRemove fs p := by
  unfold write_file at h
  cases hl : fsLookup fs p with
  | none => rw [hl] at h; dsimp only at h; cases h; rfl
  | some e =>
      rw [hl] at h
      cases e with
      | dir ro => dsimp only at h; exact absurd h (by simp)
      | file c0 => dsimp only at h; cases h; rfl

theorem remove_file_spec (fs fs2 : Filesystem) (p : Path)
    (h : remove_file fs p = some fs2) : fs2 = fsRemove fs p := by
  unfold remove_file at h
  cases hl : fsLookup fs p with
  | none => rw [hl] at h; dsimp only at h; exact absurd h (by simp)
  | some e =>
      rw [hl] at h
      cases e with
      | dir ro => dsimp only at h; exact absurd h (by simp)
      | file c0 => dsimp only at h; cases h; rfl

theorem remove_dir_all_spec (fs fs2 : Filesystem) (p : Path)
    (h : remove_dir_all fs p = some fs2) :
    fs2 = fs.filter (fun e => !(p.isPrefixOf e.fst)) := by
  unfold remove_dir_all at h
  by_cases hl : (fsLookup fs p).isSome = true
  · rw [if_pos hl] at h; cases h; rfl
  · rw [if_neg hl] at h; exact absurd h (by simp)

theorem load_unlocked_any (st : VaultState) (u p : Bytes) (ua : SecureFields)
    (hu : Vault.load_unlocked_account st u p = .ok ua) :
    st.database.accounts.any (fun x => x.username == u) = true := by
  unfold Vault.load_unlocked_account Vault.load_account at hu
  cases hd : get_account_file_dir st.fs st.filesystem_directory u with
  | none => rw [hd] at hu; exact absurd hu (by simp)
  | some d =>
      rw [hd] at hu
      dsimp only at hu
      cases hs : st.database.select_account u with
      | none => rw [hs] at hu; exact absurd hu (by simp)
      | some acc => exact select_account_any _ _ _ hs

theorem inv_create_new_account (st : VaultState) (u p key s1 s2 nc : Bytes)
    (h : Inv st) : Inv (Vault.create_new_account st u p key s1 s2 nc).snd := by
  unfold Vault.create_new_account
  dsimp only
  cases hins : st.database.insert_account (Account.new u p key s1 s2 nc) with
  | none => exact h
  | some db2 =>
      dsimp only
      cases hdir : new_account_file_dir st.fs st.filesystem_directory u with
      | none => exact h
      | some fs2 =>
          dsimp only
          obtain ⟨hacc, hcred, hfile⟩ := insert_account_spec _ _ _ hins
          obtain ⟨hver, hnone, rfl⟩ := new_account_file_dir_spec _ _ _ _ hdir
          have hune : u ≠ [] := by
            intro hemp
            subst hemp
            rw [pathPush_nil] at hnone
            have h1 := h.1
            rw [hnone] at h1
            simp at h1
          refine ⟨?_, ?_, ?_⟩
          · dsimp only
            rw [fsLookup_isSome_iff]
            obtain ⟨pe, hpe, hpq⟩ := (fsLookup_isSome_iff _ _).mp h.1
            exact ⟨pe, List.mem_cons_of_mem _ hpe, hpq⟩
          · intro a ha
            dsimp only at ha
            rw [hacc] at ha
            rcases List.mem_append.mp ha with hold | hnew
            · exact h.2.1 a hold
            · rw [List.mem_singleton.mp hnew]
              exact hune
          · intro fd hfd
            dsimp only at hfd
            rw [hfile] at hfd
            exact h.2.2 fd hfd

theorem inv_delete_account (st : VaultState) (u : Bytes)
    (h : Inv st) : Inv (Vault.delete_account st u).snd := by
  unfold Vault.delete_account
  cases hga : get_account_file_dir st.fs st.filesystem_directory u with
  | none => exact h
  | some dir =>
      dsimp only
      cases hdel : st.database.delete_account u with
      | none => exact h
      | some db2 =>
          dsimp only
          cases hrm : remove_dir_all st.fs dir with
          | none => exact h
          | some fs2 =>
              dsimp only
              obtain ⟨⟨a0, hmem0, ha0⟩, hacc, hcred, hfile⟩ :=
                delete_account_spec _ _ _ hdel
              obtain ⟨hv, rfl⟩ := get_account_file_dir_spec _ _ _ _ hga
              have hrm2 := remove_dir_all_spec _ _ _ hrm
              have hune : u ≠ [] := by
                intro hemp
                exact (h.2.1 a0 hmem0) (by rw [ha0, hemp])
              refine ⟨?_, ?_, ?_⟩
              · dsimp only
                rw [hrm2, fsLookup_isSome_iff]
                obtain ⟨pe, hpe, hpq⟩ := (fsLookup_isSome_iff _ _).mp h.1
                refine ⟨pe, List.mem_filter.mpr ⟨hpe, ?_⟩, hpq⟩
                rw [hpq, pathPush_ne _ _ hune, isPrefixOf_false_of_lt]
                · rfl
                · simp
              · intro a ha
                dsimp only at ha
                rw [hacc] at ha
                exact h.2.1 a (List.mem_filter.mp ha).1
              · intro fd hfd
                dsimp only at hfd
                rw [hfile] at hfd
                exact h.2.2 fd (List.mem_filter.mp hfd).1

theorem inv_change_account_password (st : VaultState) (u p1 p2 s1 s2 nc : Bytes)
    (h : Inv st) : Inv (Vault.change_account_password st u p1 p2 s1 s2 nc).snd := by
  cases hlu : Vault.load_unlocked_account st u p1 with
  | error e =>
      have hop : Vault.change_account_password st u p1 p2 s1 s2 nc = (none, st) := by
        unfold Vault.change_account_password
        rw [hlu]
      rw [hop]
      exact h
  | ok ua =>
      have hany := load_unlocked_any st u p1 ua hlu
      rw [change_account_password_eq st u p1 p2 s1 s2 nc ua hlu hany]
      refine ⟨h.1, ?_, h.2.2⟩
      intro a ha
      dsimp only at ha
      obtain ⟨x, hx, hfx⟩ := List.mem_map.mp ha
      by_cases hxx : (x.username == u) = true
      · rw [if_pos hxx] at hfx
        rw [← hfx]
        exact h.2.1 x hx
      · rw [if_neg hxx] at hfx
        rw [← hfx]
        exact h.2.1 x hx

theorem inv_create_credential (st : VaultState)
    (o key nm cu cp cn n1 n2 n3 n4 : Bytes)
    (h : Inv st) : Inv (Vault.create_credential st o key nm cu cp cn n1 n2 n3 n4).snd := by
  unfold Vault.create_credential
  dsimp only
  by_cases hl : (Vault.load_credential st o nm key).isSome = true
  · rw [if_pos hl]; exact h
  · rw [if_neg hl]
    cases hins : st.database.insert_credential
        (Credential.try_new o key nm cu cp cn n1 n2 n3 n4) with
    | none => exact h
    | some db2 =>
        dsimp only
        obtain ⟨hacc, hfile⟩ := insert_credential_spec _ _ _ hins
        refine ⟨h.1, ?_, ?_⟩
        · intro a ha
          dsimp only at ha
          rw [hacc] at ha
          exact h.2.1 a ha
        · intro fd hfd
          dsimp only at hfd
          rw [hfile] at hfd
          exact h.2.2 fd hfd

theorem inv_delete_credential (st : VaultState) (o nm key : Bytes)
    (h : Inv st) : Inv (Vault.delete_credential st o nm key).snd := by
  unfold Vault.delete_credential
  cases hl : Vault.load_credential st o nm key with
  | none => exact h
  | some cred =>
      dsimp only
      cases hdel : st.database.delete_credential o cred.encrypted_name.cipherbytes with
      | none => exact h
      | some db2 =>
          dsimp only
          obtain ⟨hacc, hfile⟩ := delete_credential_spec _ _ _ _ hdel
          refine ⟨h.1, ?_, ?_⟩
          · intro a ha
            dsimp only at ha
            rw [hacc] at ha
            exact h.2.1 a ha
          · intro fd hfd
            dsimp only at hfd
            rw [hfile] at hfd
            exact h.2.2 fd hfd

theorem inv_update_credential (st : VaultState) (o nm key : Bytes)
    (f : CredentialLogicalField) (v nc : Bytes)
    (h : Inv st) : Inv (Vault.update_credential st o nm key f v nc).snd := by
  unfold Vault.update_credential
  dsimp only
  cases hl : Vault.load_credential st o nm key with
  | none => exact h
  | some cred =>
      dsimp only
      cases hu1 : st.database.update_credential o cred.encrypted_name.cipherbytes
          (Credential.set_field_cipherbytes f (Encrypted.new v key nc).cipherbytes) with
      | none => dsimp only [Option.bind]; exact h
      | some dbx =>
          dsimp only [Option.bind]
          cases hu2 : dbx.update_credential o cred.encrypted_name.cipherbytes
              (Credential.set_field_nonce f (Encrypted.new v key nc).nonce) with
          | none => exact h
          | some db2 =>
              dsimp only
              obtain ⟨ha1, hf1⟩ := update_credential_spec _ _ _ _ _ hu1
              obtain ⟨ha2, hf2⟩ := update_credential_spec _ _ _ _ _ hu2
              refine ⟨h.1, ?_, ?_⟩
              · intro a ha
                dsimp only at ha
                rw [ha2, ha1] at ha
                exact h.2.1 a ha
              · intro fd hfd
                dsimp only at hfd
                rw [hf2, hf1] at hfd
                exact h.2.2 fd hfd

theorem inv_create_file (st : VaultState) (fn o c key nc : Bytes)
    (h : Inv st) : Inv (Vault.create_file st fn o c key nc).snd := by
  unfold Vault.create_file
  dsimp only
  cases hp : get_file_path st.fs st.filesystem_directory o fn with
  | none => exact h
  | some file_path =>
      dsimp only
      cases hins : st.database.insert_file_data
          ⟨file_path, fn, o, (Encrypted.new c key nc).nonce⟩ with
      | none => exact h
      | some db2 =>
          dsimp only
          cases hnf : new_file st.fs file_path (Encrypted.new c key nc).cipherbytes with
          | none => exact h
          | some fs2 =>
              dsimp only
              obtain ⟨⟨a0, hmem0, ha0⟩, hacc, hcred, hfile⟩ :=
                insert_file_data_spec _ _ _ hins
              obtain ⟨hv, rfl⟩ := get_file_path_spec _ _ _ _ _ hp
              obtain ⟨hnone, rfl⟩ := new_file_spec _ _ _ _ hnf
              have ho : o ≠ [] := by
                intro hemp
                exact (h.2.1 a0 hmem0) (by rw [ha0, hemp])
              have hfn : fn ≠ [] := by
                intro hemp
                subst hemp
                have hsome := verify_writeable_dir_isSome _ _ hv
                rw [pathPush_nil] at hnone
                rw [hnone] at hsome
                simp at hsome
              refine ⟨?_, ?_, ?_⟩
              · dsimp only
                rw [fsLookup_isSome_iff]
                obtain ⟨pe, hpe, hpq⟩ := (fsLookup_isSome_iff _ _).mp h.1
                exact ⟨pe, List.mem_cons_of_mem _ hpe, hpq⟩
              · intro a ha
                dsimp only at ha
                rw [hacc] at ha
                exact h.2.1 a ha
              · intro fd hfd
                dsimp only at hfd
                rw [hfile] at hfd
                rcases List.mem_append.mp hfd with hold | hnew
                · exact h.2.2 fd hold
                · rw [List.mem_singleton.mp hnew]
                  dsimp only
                  rw [pathPush_ne _ _ ho, pathPush_ne _ _ hfn]
                  simp

theorem inv_delete_file (st : VaultState) (u fn : Bytes)
    (h : Inv st) : Inv (Vault.delete_file st u fn).snd := by
  unfold Vault.delete_file
  cases hp : get_file_path st.fs st.filesystem_directory u fn with
  | none => exact h
  | some file_path =>
      dsimp only
      cases hdel : st.database.delete_file_data file_path with
      | none => exact h
      | some db2 =>
          dsimp only
          cases hrm : remove_file st.fs file_path with
          | none => exact h
          | some fs2 =>
              dsimp only
              obtain ⟨⟨fd0, hmem0, hfd0⟩, hacc, hcred, hfile⟩ :=
                delete_file_data_spec _ _ _ hdel
              have hrm2 := remove_file_spec _ _ _ hrm
              have hne : st.filesystem_directory ≠ file_path := by
                intro hemp
                have hlen := h.2.2 fd0 hmem0
                rw [hfd0, ← hemp] at hlen
                omega
              refine ⟨?_, ?_, ?_⟩
              · dsimp only
                rw [hrm2]
                unfold fsRemove
                rw [fsLookup_isSome_iff]
                obtain ⟨pe, hpe, hpq⟩ := (fsLookup_isSome_iff _ _).mp h.1
                refine ⟨pe, List.mem_filter.mpr ⟨hpe, ?_⟩, hpq⟩
                rw [hpq]
                simp [hne]
              · intro a ha
                dsimp only at ha
                rw [hacc] at ha
                exact h.2.1 a ha
              · intro fd hfd
                dsimp only at hfd
                rw [hfile] at hfd
                exact h.2.2 fd (List.mem_filter.mp hfd).1

theorem inv_update_file (st : VaultState) (u fn key c nc : Bytes)
    (h : Inv st) : Inv (Vault.update_file st u fn key c nc).snd := by
  unfold Vault.update_file
  dsimp only
  cases hp : get_file_path st.fs st.filesystem_directory u fn with
  | none => exact h
  | some file_path =>
      dsimp only
      cases hupd : st.database.update_file_data_nonce file_path
          (Encrypted.new c key nc).nonce with
      | none => exact h
      | some db2 =>
          dsimp only
          cases hw : write_file st.fs file_path (Encrypted.new c key nc).cipherbytes with
          | none => exact h
          | some fs2 =>
              dsimp only
              obtain ⟨⟨fd0, hmem0, hfd0⟩, hacc, hcred, hfile⟩ :=
                update_file_data_nonce_spec _ _ _ _ hupd
              have hw2 := write_file_spec _ _ _ _ hw
              refine ⟨?_, ?_, ?_⟩
              · dsimp only
                rw [hw2]
                rw [fsLookup_isSome_iff]
                obtain ⟨pe, hpe, hpq⟩ := (fsLookup_isSome_iff _ _).mp h.1
                have hne : st.filesystem_directory ≠ file_path := by
                  intro hemp
                  have hlen := h.2.2 fd0 hmem0
                  rw [hfd0, ← hemp] at hlen
                  omega
                refine ⟨pe, List.mem_cons_of_mem _ ?_, hpq⟩
                unfold fsRemove
                refine List.mem_filter.mpr ⟨hpe, ?_⟩
                rw [hpq]
                simp [hne]
              · intro a ha
                dsimp only at ha
                rw [hacc] at ha
                exact h.2.1 a ha
              · intro fd hfd
                dsimp only at hfd
                rw [hfile] at hfd
                obtain ⟨x, hx, hfx⟩ := List.mem_map.mp hfd
                by_cases hxx : (x.path == file_path) = true
                · rw [if_pos hxx] at hfx
                  rw [← hfx]
                  exact h.2.2 x hx
                · rw [if_neg hxx] at hfx
                  rw [← hfx]
                  exact h.2.2 x hx

/-- Every state reachable through the public Vault API satisfies the
invariant. -/
theorem reachable_inv (st : VaultState) (h : Reachable st) : Inv st := by
  induction h with
  | init fs dir hdir =>
      refine ⟨by rw [hdir]; rfl, ?_, ?_⟩
      · intro a ha; simp at ha
      · intro fd hfd; simp at hfd
  | create_new_account st u p key s1 s2 nc _ ih =>
      exact inv_create_new_account st u p key s1 s2 nc ih
  | delete_account st u _ ih => exact inv_delete_account st u ih
  | change_account_password st u p1 p2 s1 s2 nc _ ih =>
      exact inv_change_account_password st u p1 p2 s1 s2 nc ih
  | create_credential st o key nm cu cp cn n1 n2 n3 n4 _ ih =>
      exact inv_create_credential st o key nm cu cp cn n1 n2 n3 n4 ih
  | delete_credential st o nm key _ ih => exact inv_delete_credential st o nm key ih
  | update_credential st o nm key f v nc _ ih =>
      exact inv_update_credential st o nm key f v nc ih
  | create_file st fn o c key nc _ ih => exact inv_create_file st fn o c key nc ih
  | delete_file st u fn _ ih => exact inv_delete_file st u fn ih
  | update_file st u fn key c nc _ ih => exact inv_update_file st u fn key c nc ih

/-- **C8.** In every reachable vault state, creating an account with the
empty username fails and persists nothing (the transactional insert is
rolled back when `create_dir` on `<data_dir>/` — the already-existing
data directory itself — fails), and no stored account has an empty
username.  Note `Account::new` itself never validates the username; the
guarantee comes from the filesystem step. -/
theorem empty_username_never_persisted (st : VaultState) (h : Reachable st) :
    (∀ password key salt1 salt2 nonce,
        Vault.create_new_account st [] password key salt1 salt2 nonce = (none, st))
    ∧ ∀ a ∈ st.database.accounts, a.username ≠ ([] : Bytes) := by
  have hinv := reachable_inv st h
  refine ⟨?_, hinv.2.1⟩
  intro p key s1 s2 nc
  unfold Vault.create_new_account
  dsimp only
  cases hins : st.database.insert_account (Account.new [] p key s1 s2 nc) with
  | none => rfl
  | some db2 =>
      dsimp only
      have hdir : new_account_file_dir st.fs st.filesystem_directory [] = none := by
        unfold new_account_file_dir
        by_cases hv : verify_writeable_dir st.fs st.filesystem_directory = true
        · rw [if_pos hv]
          dsimp only
          rw [pathPush_nil, if_pos hinv.1]
        · rw [if_neg hv]
      rw [hdir]

/-- A fresh vault: empty metadata store, existing writable data
directory. -/
def stInit : VaultState :=
  { database := { accounts := [], credentials := [], files_data := [] }
    fs := [([[100]], .dir false)]
    filesystem_directory := [[100]] }

/-- Witness for C8 at the freshly connected vault. -/
theorem empty_username_never_persisted_witness :
    Vault.create_new_account stInit [] [5] [7] [8] [9] [10] = (none, stInit) :=
  (empty_username_never_persisted stInit
    (Reachable.init [([[100]], .dir false)] [[100]] (by decide))).1 [5] [7] [8] [9] [10]
